import Mathlib

/-!
Verification development for the `clawclub` skill
(`skills/clawclub/skill.ts`, version 1.2.0).

The TypeScript source is shallowly embedded below:

* strings are `List Char` (JavaScript `.length` on the ASCII inputs used
  here coincides with the character count);
* JavaScript numbers that the program only ever uses as integers
  (issue numbers, token counts, daily counters) are `Int`;
* the one place the program performs non-integral arithmetic
  (`daily_tokens * (reserve_percent / 100)`, lines 125-126) is embedded
  twice: as its exact rational value (`reserveQ`/`availableQ`), used only
  where that provably coincides with the program's doubles, and as a
  faithful IEEE binary64 model (`F`, `roundQ`, `availableF`) that rounds
  every arithmetic step to 53 bits, nearest, ties to even — the latter is
  what claim C7 is settled against;
* external calls (`fetch`-based claim/submit posts, `context.llm.complete`,
  repo creation) are modelled by an outcome oracle `ExtCall`: each call
  either returns a value or throws; the `run` loop has no try/catch, so a
  thrown call propagates and is modelled by an `abort` tag;
* `context.memory` is a persisted key-value store with value semantics:
  a mutation of the local `dailyStats` object counts only once
  `memory.set('clawclub:daily', …)` runs (line 288).

`parseIssueConfig`, the cost estimate (lines 153–160), the budget check
(lines 124–126, 162–166), `getConfig`'s numeric-field resolution
(lines 23–52) and the candidate loop of `run` (lines 106–299) are embedded
definition by definition; `context.log` calls inside the loop are recorded
as an explicit `LogEvent` trace.
-/

namespace ClawClub

/-! ### JavaScript string primitives -/

/-- Whitespace characters recognised by JavaScript `String.trim`
(restricted to the ASCII range, which covers every string in this file). -/
def jsIsWs (c : Char) : Bool :=
  c = ' ' || c = '\t' || c = '\n' || c = '\r' || c = '\x0b' || c = '\x0c'

/-- JavaScript `String.trim`. -/
def jsTrim (s : List Char) : List Char :=
  ((s.dropWhile jsIsWs).reverse.dropWhile jsIsWs).reverse

/-- Index of the first occurrence of `pat` in `s` (leftmost match of a
literal pattern, as a regex engine would find it). -/
def findSub (pat : List Char) : List Char → Option Nat
  | [] => if pat.isPrefixOf [] then some 0 else none
  | a :: t => if pat.isPrefixOf (a :: t) then some 0 else (findSub pat t).map (· + 1)

/-- JavaScript `s.split(c)` for a single-character separator: always returns
at least one piece, and empty pieces are kept. -/
def splitOnChar (c : Char) : List Char → List (List Char)
  | [] => [[]]
  | a :: t =>
    let r := splitOnChar c t
    if a = c then [] :: r
    else
      match r with
      | [] => [[a]]
      | h :: rs => (a :: h) :: rs

/-- JavaScript `parts.join(c)`. -/
def joinWith (c : Char) : List (List Char) → List Char
  | [] => []
  | [x] => x
  | x :: xs => x ++ c :: joinWith c xs

/-- Lazy matching of `openPat ([\s\S]*?) closePat`: the leftmost occurrence
of the opening literal, then the shortest body up to the next occurrence of
the closing literal; `none` when the regex fails to match. -/
def matchBetween (openPat closePat s : List Char) : Option (List Char) :=
  match findSub openPat s with
  | none => none
  | some i =>
    let rest := s.drop (i + openPat.length)
    match findSub closePat rest with
    | none => none
    | some j => some (rest.take j)

/-- One global-replace-by-empty pass for the pattern
`openPat [\s\S]*? closePat`, as in JavaScript `s.replace(re, '')` with the
`g` flag: after each deletion, scanning resumes after the deleted match.
The `Nat` argument is recursion fuel; each step removes at least one
character, so `s.length` fuel is always enough. -/
def stripAllFuel (openPat closePat : List Char) : Nat → List Char → List Char
  | 0, s => s
  | fuel + 1, s =>
    match findSub openPat s with
    | none => s
    | some i =>
      let rest := s.drop (i + openPat.length)
      match findSub closePat rest with
      | none => s
      | some j => s.take i ++ stripAllFuel openPat closePat fuel (rest.drop (j + closePat.length))

def stripAll (openPat closePat s : List Char) : List Char :=
  stripAllFuel openPat closePat s.length s

/-! ### parseIssueConfig (skill.ts lines 340–364) -/

def yamlOpen : List Char := "```yaml\n".data
def codeFence : List Char := "```".data
def dashOpen : List Char := "---\n".data
def dashClose : List Char := "\n---".data
def fenceClose : List Char := "\n```".data
def dashes : List Char := "---".data
def promptKey : List Char := "prompt".data

/-- Line 344–345: `body.match(/```yaml\n([\s\S]*?)\n```/) ||
body.match(/---\n([\s\S]*?)\n---/)`. -/
def blockMatch (body : List Char) : Option (List Char) :=
  match matchBetween yamlOpen fenceClose body with
  | some y => some y
  | none => matchBetween dashOpen dashClose body

/-- Lines 350–355: split the matched block into lines, split each line on
`:`; a line contributes an entry when its first piece (the key) is a
non-empty string and at least one `:` was present.  Later entries override
earlier ones (JavaScript object assignment), which `lookupLast` honours. -/
def parseYamlLines (yaml : List Char) : List (List Char × List Char) :=
  (splitOnChar '\n' yaml).filterMap fun line =>
    match splitOnChar ':' line with
    | [] => none
    | [_] => none
    | k :: rest =>
      if k = [] then none
      else some (jsTrim k, jsTrim (joinWith ':' rest))

/-- Last binding wins, mirroring repeated `config[key] = value`. -/
def lookupLast (m : List (List Char × List Char)) (k : List Char) : Option (List Char) :=
  match m with
  | [] => none
  | (k', v) :: rest =>
    match lookupLast rest k with
    | some v' => some v'
    | none => if k' = k then some v else none

/-- Entries contributed by the fenced/dashed configuration block alone. -/
def blockEntries (body : List Char) : List (List Char × List Char) :=
  match blockMatch body with
  | some y => parseYamlLines y
  | none => []

/-- Line 360: `body.replace(/```[\s\S]*?```/g, '').replace(/---[\s\S]*?---/g, '').trim()`. -/
def strippedPrompt (body : List Char) : List Char :=
  jsTrim (stripAll dashes dashes (stripAll codeFence codeFence body))

/-- `parseIssueConfig` (lines 340–364) as the list of key/value entries of
the returned object.  Line 359 `if (!config.prompt)` fires when the key is
absent *or* bound to the empty string (JavaScript falsiness), in which case
the stripped body is assigned to `prompt`. -/
def parseIssueConfig (body : List Char) : List (List Char × List Char) :=
  let entries := blockEntries body
  match lookupLast entries promptKey with
  | some p => if p = [] then entries ++ [(promptKey, strippedPrompt body)] else entries
  | none => entries ++ [(promptKey, strippedPrompt body)]

def cfgGet (body k : List Char) : Option (List Char) :=
  lookupLast (parseIssueConfig body) k

/-! ### Cost estimate and budget arithmetic (lines 124–126, 153–160) -/

/-- Line 156: `issueConfig.prompt?.length || issue.body.length` — a prompt
of length zero falls through to the raw body length. -/
def promptLen (body : List Char) : Nat :=
  match cfgGet body promptKey with
  | some p => if p.length = 0 then body.length else p.length
  | none => body.length

/-- `Math.ceil(n / 4)` for a non-negative integer `n`. -/
def ceilDiv4 (n : Nat) : Nat := (n + 3) / 4

def estimatedInputTokens (body : List Char) : Nat := ceilDiv4 (promptLen body)

/-- JavaScript `a || d` on numbers already known to be integers
(`0` is the only falsy integer). -/
def jsOrInt (a d : Int) : Int := if a = 0 then d else a

inductive ItemType
  | battle
  | task
deriving DecidableEq

structure Budget where
  daily_tokens : Int
  max_per_battle : Int
  max_per_task : Int
  reserve_percent : Int
deriving DecidableEq

/-- Lines 156–160: input estimate plus the per-kind output budget
(`budget.max_per_battle || 2000`, `budget.max_per_task || 3000`). -/
def estimatedTokens (budget : Budget) (ty : ItemType) (body : List Char) : Int :=
  (estimatedInputTokens body : Int) +
    (match ty with
     | .battle => jsOrInt budget.max_per_battle 2000
     | .task => jsOrInt budget.max_per_task 3000)

/-- Line 125: `budget.daily_tokens * (budget.reserve_percent / 100)`,
exact rational arithmetic. -/
def reserveQ (b : Budget) : ℚ :=
  (b.daily_tokens : ℚ) * ((b.reserve_percent : ℚ) / 100)

/-- Line 126: `budget.daily_tokens - dailyStats.tokens_used - reserve`. -/
def availableQ (b : Budget) (tokensUsed : Int) : ℚ :=
  (b.daily_tokens : ℚ) - (tokensUsed : ℚ) - reserveQ b

/-- Line 163: `estimatedTokens > available`.  The comparison is stated over
the integers after scaling by 100 so that it evaluates by kernel reduction;
`budgetExceeds_eq` proves it is exactly the rational comparison
`est > availableQ b tokensUsed`. -/
def budgetExceeds (b : Budget) (tokensUsed est : Int) : Bool :=
  decide (100 * est > 100 * b.daily_tokens - 100 * tokensUsed -
    b.daily_tokens * b.reserve_percent)

theorem budgetExceeds_eq (b : Budget) (t e : Int) :
    budgetExceeds b t e = decide ((e : ℚ) > availableQ b t) := by
  simp only [budgetExceeds]
  rw [decide_eq_decide]
  rw [gt_iff_lt, gt_iff_lt, availableQ, reserveQ]
  rw [← @Int.cast_lt ℚ]
  push_cast
  constructor <;> intro h <;> linarith

/-! ### getConfig numeric-field resolution (lines 23–52) -/

/-- JavaScript `parseInt(s)` restricted to base-10 numerals (no string in
this development carries a radix prefix): skip leading whitespace, take an
optional sign and then the maximal run of decimal digits; `none` is `NaN`. -/
def digitsToNat (ds : List Char) : Nat :=
  ds.foldl (fun a c => a * 10 + (c.toNat - 48)) 0

def leadDigits (s : List Char) : Option Int :=
  let ds := s.takeWhile Char.isDigit
  if ds = [] then none else some (digitsToNat ds : Int)

def jsParseInt (s : List Char) : Option Int :=
  match s.dropWhile jsIsWs with
  | '-' :: r => (leadDigits r).map (fun n => -n)
  | '+' :: r => leadDigits r
  | r => leadDigits r

/-- One numeric field of `getConfig`:
`parseInt(env.X || '') || config….field || default`.
`parseInt` of an unset variable is `NaN` (falsy), and an explicit `0` at
either level is also falsy, so each level falls through on `0`. -/
def resolveNum (envS : Option (List Char)) (cfgV : Option Int) (dflt : Int) : Int :=
  let fromCfg :=
    match cfgV with
    | some m => if m = 0 then dflt else m
    | none => dflt
  match jsParseInt (envS.getD []) with
  | some n => if n = 0 then fromCfg else n
  | none => fromCfg

structure EnvVars where
  daily_tokens : Option (List Char)
  max_per_battle : Option (List Char)
  max_per_task : Option (List Char)
  reserve_percent : Option (List Char)
  max_tasks_per_day : Option (List Char)

structure NestedCfg where
  daily_tokens : Option Int
  max_per_battle : Option Int
  max_per_task : Option Int
  reserve_percent : Option Int
  max_tasks_per_day : Option Int

/-- The `budget` object built by `getConfig` (lines 31–36). -/
def getConfigBudget (env : EnvVars) (cfg : NestedCfg) : Budget where
  daily_tokens := resolveNum env.daily_tokens cfg.daily_tokens 100000
  max_per_battle := resolveNum env.max_per_battle cfg.max_per_battle 2000
  max_per_task := resolveNum env.max_per_task cfg.max_per_task 3000
  reserve_percent := resolveNum env.reserve_percent cfg.reserve_percent 10

/-- `preferences.for_good.max_tasks_per_day` (line 48). -/
def getConfigMaxTasks (env : EnvVars) (cfg : NestedCfg) : Int :=
  resolveNum env.max_tasks_per_day cfg.max_tasks_per_day 3

/-! ### Data model for one invocation of `run` (lines 86–300) -/

structure Issue where
  number : Int
  title : List Char
  body : List Char
  labels : List (List Char)
deriving DecidableEq

/-- Outcome oracle for the awaited external calls made on behalf of one
candidate; `threw` models the promise rejecting (the `run` body has no
try/catch, so a rejection propagates out of `run`). -/
inductive ExtCall (α : Type)
  | ok (a : α)
  | threw
deriving DecidableEq

structure IssueOutcome where
  /-- `doesPromptMatchOwner` (line 179), consulted when owner knowledge exists. -/
  matchOwner : ExtCall Bool
  /-- `claimIssue` (line 215): `resp.ok` of the claim comment post. -/
  claim : ExtCall Bool
  /-- `context.llm.complete` (lines 236, 268). -/
  execText : ExtCall (List Char)
  /-- `createAgentRepo` (line 249): `none` models its `null` failure result. -/
  repoUrl : ExtCall (Option (List Char))
  /-- `submitResult` (line 280): `resp.ok` of the submission post. -/
  submit : ExtCall Bool
deriving DecidableEq

/-- A fetched issue together with the pool-derived kind tag
(lines 139, 144) and its external-call outcomes. -/
structure Candidate where
  issue : Issue
  type : ItemType
  outcome : IssueOutcome
deriving DecidableEq

/-- `clawclub:daily` record (lines 109–114). -/
structure DailyStats where
  tokens_used : Int
  battles_joined : Int
  tasks_completed : Int
  date : List Char
deriving DecidableEq

structure ArenaPrefs where
  enabled : Bool
  categories : List (List Char)
deriving DecidableEq

structure ForGoodPrefs where
  enabled : Bool
  categories : List (List Char)
  max_tasks_per_day : Int
deriving DecidableEq

structure Prefs where
  arena : ArenaPrefs
  for_good : ForGoodPrefs
deriving DecidableEq

/-- `context.log` lines emitted by `run`, one constructor per call site. -/
inductive LogEvent
  | missingCreds
  | polling
  | skipBudget (n : Int)
  | skipNoFit (n : Int)
  | skipCategory (n : Int)
  | skipBattleLimit (n : Int)
  | skipTaskLimit (n : Int)
  | claiming (n : Int)
  | claimFailed (n : Int)
  | creatingRepo (n : Int)
  | repoFailed (n : Int)
  | workingIn (url : List Char)
  | completed (n : Int)
  | noneClaimed
deriving DecidableEq

/-- Persisted/loop state while `run` walks the candidate list.
`claimed` is the persisted `clawclub:claimed` list (written eagerly at
lines 223–225); `localDaily` is the in-process `dailyStats` object;
`memDaily` is the persisted `clawclub:daily` value, written only by
`memory.set` at line 288. -/
structure LoopSt where
  claimed : List Int
  localDaily : DailyStats
  memDaily : Option DailyStats
deriving DecidableEq

inductive StepTag
  | skip
  | done
  | abort
deriving DecidableEq

/-- Result of processing one candidate: `skip` is `continue`, `done` is the
`break` at line 294, `abort` is an uncaught exception propagating out of
`run`. -/
structure StepOut where
  tag : StepTag
  st : LoopSt
  log : List LogEvent
deriving DecidableEq

/-! ### The candidate loop (lines 151–295), phase by phase -/

/-- Line 228: `issueConfig.requires_repo === 'true' || … === true`; values
produced by `parseIssueConfig` are strings, so only the first disjunct can
hold. -/
def requiresRepoOf (body : List Char) : Bool :=
  decide (cfgGet body "requires_repo".data = some "true".data)

/-- Lines 192–195: the predicate passed to `labels.find`. -/
def labelMatches (prefs : Prefs) (ty : ItemType) (l : List Char) : Bool :=
  (decide (ty = ItemType.battle) && prefs.arena.categories.contains l) ||
    (decide (ty = ItemType.task) && prefs.for_good.categories.contains l)

def matchedCategory (prefs : Prefs) (ty : ItemType) (labels : List (List Char)) :
    Option (List Char) :=
  labels.find? (labelMatches prefs ty)

/-- Line 196 `if (!matchedCategory)`: an absent result rejects, and so does
a matched label that is the empty string (falsy). -/
def fallbackMatchOk (prefs : Prefs) (ty : ItemType) (labels : List (List Char)) : Bool :=
  match matchedCategory prefs ty labels with
  | none => false
  | some l => !l.isEmpty

/-- Steps 8–9 (lines 277–294): the submission post, then — with the
submission's boolean result ignored — recording the spend and persisting
the stats, then `break`.  `daily1` is the local `dailyStats` object after
the counter increment at line 241 or 274. -/
def submitPhase (est : Int) (n : Int) (st : LoopSt) (daily1 : DailyStats)
    (sub : ExtCall Bool) (log0 : List LogEvent) : StepOut :=
  match sub with
  | .threw => ⟨.abort, { st with localDaily := daily1 }, log0⟩
  | .ok _ =>
    let d2 := { daily1 with tokens_used := daily1.tokens_used + est }
    ⟨.done, ⟨st.claimed, d2, some d2⟩, log0 ++ [.completed n]⟩

/-- Step 7 (lines 230–275): execution.  Battles always call the completion
model and bump `battles_joined`; tasks either create a repo (a `null`
result skips the candidate at line 258, leaving it claimed) or call the
completion model, and bump `tasks_completed` at line 274. -/
def execPhase (est : Int) (st : LoopSt) (c : Candidate) (log0 : List LogEvent) : StepOut :=
  let n := c.issue.number
  match c.type with
  | .battle =>
    match c.outcome.execText with
    | .threw => ⟨.abort, st, log0⟩
    | .ok _ =>
      submitPhase est n st
        { st.localDaily with battles_joined := st.localDaily.battles_joined + 1 }
        c.outcome.submit log0
  | .task =>
    if requiresRepoOf c.issue.body then
      match c.outcome.repoUrl with
      | .threw => ⟨.abort, st, log0 ++ [.creatingRepo n]⟩
      | .ok none => ⟨.skip, st, log0 ++ [.creatingRepo n, .repoFailed n]⟩
      | .ok (some url) =>
        submitPhase est n st
          { st.localDaily with tasks_completed := st.localDaily.tasks_completed + 1 }
          c.outcome.submit (log0 ++ [.creatingRepo n, .workingIn url])
    else
      match c.outcome.execText with
      | .threw => ⟨.abort, st, log0⟩
      | .ok _ =>
        submitPhase est n st
          { st.localDaily with tasks_completed := st.localDaily.tasks_completed + 1 }
          c.outcome.submit log0

/-- Steps 5–6 (lines 213–225): the claim post; a reported failure skips the
candidate with no state change, success immediately appends the issue
number to the persisted `clawclub:claimed` list before execution. -/
def claimPhase (est : Int) (st : LoopSt) (c : Candidate) : StepOut :=
  let n := c.issue.number
  match c.outcome.claim with
  | .threw => ⟨.abort, st, [.claiming n]⟩
  | .ok false => ⟨.skip, st, [.claiming n, .claimFailed n]⟩
  | .ok true => execPhase est { st with claimed := st.claimed ++ [n] } c [.claiming n]

/-- Step 4 (lines 203–211): the rate-limit gate, reading the local
`dailyStats` counters. -/
def rateGate (prefs : Prefs) (est : Int) (st : LoopSt) (c : Candidate) : StepOut :=
  match c.type with
  | .battle =>
    if st.localDaily.battles_joined ≥ 1 then ⟨.skip, st, [.skipBattleLimit c.issue.number]⟩
    else claimPhase est st c
  | .task =>
    if st.localDaily.tasks_completed ≥ prefs.for_good.max_tasks_per_day then
      ⟨.skip, st, [.skipTaskLimit c.issue.number]⟩
    else claimPhase est st c

/-- One iteration of the `for` body (lines 151–295) for one candidate:
budget gate (line 163, against `available` computed once at line 126 from
the post-rollover `tokensUsed0`), match gate (lines 168–201, with `ownerK`
the value `getOwnerKnowledge` yields for this run), then rate limit, claim,
execution and submission. -/
def processCandidate (budget : Budget) (prefs : Prefs) (ownerK : Option (List Char))
    (tokensUsed0 : Int) (st : LoopSt) (c : Candidate) : StepOut :=
  let est := estimatedTokens budget c.type c.issue.body
  if budgetExceeds budget tokensUsed0 est then ⟨.skip, st, [.skipBudget c.issue.number]⟩
  else
    match ownerK with
    | some _ =>
      match c.outcome.matchOwner with
      | .threw => ⟨.abort, st, []⟩
      | .ok true => rateGate prefs est st c
      | .ok false => ⟨.skip, st, [.skipNoFit c.issue.number]⟩
    | none =>
      if fallbackMatchOk prefs c.type c.issue.labels then rateGate prefs est st c
      else ⟨.skip, st, [.skipCategory c.issue.number]⟩

structure LoopOut where
  st : LoopSt
  log : List LogEvent
  threw : Bool
  claimedThisRun : Bool
deriving DecidableEq

/-- The `for` loop itself: `skip` continues with the next candidate,
`done` breaks, `abort` propagates the exception. -/
def runLoop (budget : Budget) (prefs : Prefs) (ownerK : Option (List Char))
    (tokensUsed0 : Int) : List Candidate → LoopSt → LoopOut
  | [], st => ⟨st, [], false, false⟩
  | c :: rest, st =>
    let r := processCandidate budget prefs ownerK tokensUsed0 st c
    match r.tag with
    | .done => ⟨r.st, r.log, false, true⟩
    | .abort => ⟨r.st, r.log, true, false⟩
    | .skip =>
      let out := runLoop budget prefs ownerK tokensUsed0 rest r.st
      ⟨out.st, r.log ++ out.log, out.threw, out.claimedThisRun⟩

/-! ### The whole invocation -/

structure RunInput where
  agent_id : Option (List Char)
  github_token : Option (List Char)
  budget : Budget
  prefs : Prefs
  /-- The owner-knowledge text available this run (`getOwnerKnowledge`
  never throws: its refresh is wrapped in try/catch, lines 441–458). -/
  ownerK : Option (List Char)
  today : List Char
  memClaimed : List Int
  memDaily : Option DailyStats
  /-- Issues fetched from `clawclub/battles` (tagged `battle` at line 139). -/
  arenaItems : List (Issue × IssueOutcome)
  /-- Issues fetched from `clawclub/clawback` (tagged `task` at line 144). -/
  forGoodItems : List (Issue × IssueOutcome)

structure RunResult where
  claimed : List Int
  memDaily : Option DailyStats
  log : List LogEvent
  threw : Bool
  claimedThisRun : Bool
deriving DecidableEq

/-- Line 99 `if (!agentId || !githubToken)`: absent or empty-string
credentials are falsy. -/
def credsMissing (inp : RunInput) : Bool :=
  decide (inp.agent_id.getD [] = []) || decide (inp.github_token.getD [] = [])

/-- Lines 109–122: load `clawclub:daily` (default zero counters dated
today) and zero it when the stored date differs from today. -/
def rolloverStats (mem : Option DailyStats) (today : List Char) : DailyStats :=
  let d0 := mem.getD ⟨0, 0, 0, today⟩
  if d0.date ≠ today then ⟨0, 0, 0, today⟩ else d0

/-- Lines 135–145: concatenate the enabled pools, tagging each issue with
its pool's kind. -/
def issuesOf (inp : RunInput) : List Candidate :=
  (if inp.prefs.arena.enabled then
    inp.arenaItems.map (fun p => ⟨p.1, .battle, p.2⟩) else [])
  ++ (if inp.prefs.for_good.enabled then
    inp.forGoodItems.map (fun p => ⟨p.1, .task, p.2⟩) else [])

/-- Lines 147–149: `issues.filter(i => !claimed.includes(i.number))`. -/
def unclaimedOf (cl : List Int) (cands : List Candidate) : List Candidate :=
  cands.filter fun c => !decide (c.issue.number ∈ cl)

/-- `run` (lines 86–300), with the weekly version check (lines 87–93)
elided: it touches neither the claim state nor the daily stats. -/
def run (inp : RunInput) : RunResult :=
  if credsMissing inp then
    ⟨inp.memClaimed, inp.memDaily, [.missingCreds], false, false⟩
  else
    let daily1 := rolloverStats inp.memDaily inp.today
    let cands := unclaimedOf inp.memClaimed (issuesOf inp)
    let out := runLoop inp.budget inp.prefs inp.ownerK daily1.tokens_used cands
      ⟨inp.memClaimed, daily1, inp.memDaily⟩
    ⟨out.st.claimed, out.st.memDaily,
      .polling :: out.log ++ (if !out.claimedThisRun && !out.threw then [.noneClaimed] else []),
      out.threw, out.claimedThisRun⟩

/-! ### Structural lemmas about the loop phases -/

def isCompletedEv : LogEvent → Bool
  | .completed _ => true
  | _ => false

/-- Number of `Completed …` log lines in a trace. -/
def cntCompleted (l : List LogEvent) : Nat := (l.filter isCompletedEv).length

theorem cntCompleted_append (a b : List LogEvent) :
    cntCompleted (a ++ b) = cntCompleted a + cntCompleted b := by
  simp [cntCompleted, List.filter_append]

theorem submitPhase_claimed (est n : Int) (st : LoopSt) (d : DailyStats)
    (sub : ExtCall Bool) (l : List LogEvent) :
    (submitPhase est n st d sub l).st.claimed = st.claimed := by
  cases sub <;> rfl

theorem execPhase_claimed (est : Int) (st : LoopSt) (c : Candidate) (l : List LogEvent) :
    (execPhase est st c l).st.claimed = st.claimed := by
  rcases c with ⟨issue, ty, out⟩
  rcases out with ⟨mo, cl, ex, ru, su⟩
  cases ty
  · cases ex <;> simp [execPhase, submitPhase_claimed]
  · by_cases hr : requiresRepoOf issue.body
    · rcases ru with u | _
      · rcases u with _ | u <;> simp [execPhase, hr, submitPhase_claimed]
      · simp [execPhase, hr]
    · cases ex <;> simp [execPhase, hr, submitPhase_claimed]

theorem claimPhase_claimed (est : Int) (st : LoopSt) (c : Candidate) :
    (claimPhase est st c).st.claimed = st.claimed ∨
      (claimPhase est st c).st.claimed = st.claimed ++ [c.issue.number] := by
  rcases hcl : c.outcome.claim with b | _
  · cases b
    · left; simp [claimPhase, hcl]
    · right; simp [claimPhase, hcl, execPhase_claimed]
  · left; simp [claimPhase, hcl]

theorem rateGate_claimed (prefs : Prefs) (est : Int) (st : LoopSt) (c : Candidate) :
    (rateGate prefs est st c).st.claimed = st.claimed ∨
      (rateGate prefs est st c).st.claimed = st.claimed ++ [c.issue.number] := by
  rcases c with ⟨issue, ty, out⟩
  cases ty <;> unfold rateGate <;> dsimp only <;> split
  · left; rfl
  · exact claimPhase_claimed est st ⟨issue, .battle, out⟩
  · left; rfl
  · exact claimPhase_claimed est st ⟨issue, .task, out⟩

theorem processCandidate_claimed (budget : Budget) (prefs : Prefs)
    (ownerK : Option (List Char)) (t0 : Int) (st : LoopSt) (c : Candidate) :
    (processCandidate budget prefs ownerK t0 st c).st.claimed = st.claimed ∨
      (processCandidate budget prefs ownerK t0 st c).st.claimed =
        st.claimed ++ [c.issue.number] := by
  unfold processCandidate
  dsimp only
  by_cases hb : budgetExceeds budget t0 (estimatedTokens budget c.type c.issue.body) = true
  · rw [if_pos hb]; left; rfl
  · rw [if_neg hb]
    rcases ownerK with _ | k
    · dsimp only
      by_cases hm : fallbackMatchOk prefs c.type c.issue.labels = true
      · rw [if_pos hm]; exact rateGate_claimed prefs _ st c
      · rw [if_neg hm]; left; rfl
    · dsimp only
      rcases hmo : c.outcome.matchOwner with b | _
      · cases b <;> simp only [hmo]
        · exact Or.inl trivial
        · exact rateGate_claimed prefs _ st c
      · simp only [hmo]; exact Or.inl trivial

theorem submitPhase_daily (est n : Int) (st : LoopSt) (d : DailyStats)
    (sub : ExtCall Bool) (l : List LogEvent) (r : StepOut)
    (hr : r = submitPhase est n st d sub l) :
    (r.tag = .abort → r.st.memDaily = st.memDaily) ∧
    (r.tag = .done → r.st.memDaily = some r.st.localDaily ∧
      r.st.localDaily = { d with tokens_used := d.tokens_used + est }) := by
  subst hr
  cases sub <;> simp [submitPhase]

theorem execPhase_daily (est : Int) (st : LoopSt) (c : Candidate) (l : List LogEvent)
    (r : StepOut) (hr : r = execPhase est st c l) :
    ((r.tag = .skip ∨ r.tag = .abort) → r.st.memDaily = st.memDaily) ∧
    (r.tag = .done → r.st.memDaily = some r.st.localDaily ∧
      r.st.localDaily.tokens_used = st.localDaily.tokens_used + est ∧
      r.st.localDaily.date = st.localDaily.date ∧
      (c.type = .battle → r.st.localDaily.battles_joined = st.localDaily.battles_joined + 1 ∧
        r.st.localDaily.tasks_completed = st.localDaily.tasks_completed) ∧
      (c.type = .task → r.st.localDaily.tasks_completed = st.localDaily.tasks_completed + 1 ∧
        r.st.localDaily.battles_joined = st.localDaily.battles_joined)) := by
  subst hr
  rcases c with ⟨issue, ty, out⟩
  rcases out with ⟨mo, cl, ex, ru, su⟩
  cases ty
  · cases ex
    · cases su <;> simp [execPhase, submitPhase]
    · simp [execPhase]
  · by_cases hrr : requiresRepoOf issue.body
    · rcases ru with u | _
      · rcases u with _ | u
        · simp [execPhase, hrr]
        · cases su <;> simp [execPhase, hrr, submitPhase]
      · simp [execPhase, hrr]
    · cases ex
      · cases su <;> simp [execPhase, hrr, submitPhase]
      · simp [execPhase, hrr]

theorem claimPhase_daily (est : Int) (st : LoopSt) (c : Candidate)
    (r : StepOut) (hr : r = claimPhase est st c) :
    ((r.tag = .skip ∨ r.tag = .abort) → r.st.memDaily = st.memDaily) ∧
    (r.tag = .done → r.st.memDaily = some r.st.localDaily ∧
      r.st.localDaily.tokens_used = st.localDaily.tokens_used + est ∧
      r.st.localDaily.date = st.localDaily.date ∧
      (c.type = .battle → r.st.localDaily.battles_joined = st.localDaily.battles_joined + 1 ∧
        r.st.localDaily.tasks_completed = st.localDaily.tasks_completed) ∧
      (c.type = .task → r.st.localDaily.tasks_completed = st.localDaily.tasks_completed + 1 ∧
        r.st.localDaily.battles_joined = st.localDaily.battles_joined)) := by
  subst hr
  rcases hcl : c.outcome.claim with b | _
  · cases b
    · simp [claimPhase, hcl]
    · have := execPhase_daily est { st with claimed := st.claimed ++ [c.issue.number] } c
        [.claiming c.issue.number] _ rfl
      simpa [claimPhase, hcl] using this
  · simp [claimPhase, hcl]

theorem rateGate_daily (prefs : Prefs) (est : Int) (st : LoopSt) (c : Candidate)
    (r : StepOut) (hr : r = rateGate prefs est st c) :
    ((r.tag = .skip ∨ r.tag = .abort) → r.st.memDaily = st.memDaily) ∧
    (r.tag = .done → r.st.memDaily = some r.st.localDaily ∧
      r.st.localDaily.tokens_used = st.localDaily.tokens_used + est ∧
      r.st.localDaily.date = st.localDaily.date ∧
      (c.type = .battle → r.st.localDaily.battles_joined = st.localDaily.battles_joined + 1 ∧
        r.st.localDaily.tasks_completed = st.localDaily.tasks_completed) ∧
      (c.type = .task → r.st.localDaily.tasks_completed = st.localDaily.tasks_completed + 1 ∧
        r.st.localDaily.battles_joined = st.localDaily.battles_joined)) := by
  subst hr
  rcases c with ⟨issue, ty, out⟩
  cases ty <;> unfold rateGate <;> dsimp only <;> split
  · simp
  · exact claimPhase_daily est st ⟨issue, .battle, out⟩ _ rfl
  · simp
  · exact claimPhase_daily est st ⟨issue, .task, out⟩ _ rfl

/-- Per-candidate spend recording: the persisted daily stats are written
only when the candidate reaches the `break` (submission call returned),
and then record exactly the estimate plus the kind counter. -/
theorem processCandidate_daily (budget : Budget) (prefs : Prefs)
    (ownerK : Option (List Char)) (t0 : Int) (st : LoopSt) (c : Candidate)
    (r : StepOut) (hr : r = processCandidate budget prefs ownerK t0 st c) :
    ((r.tag = .skip ∨ r.tag = .abort) → r.st.memDaily = st.memDaily) ∧
    (r.tag = .done → r.st.memDaily = some r.st.localDaily ∧
      r.st.localDaily.tokens_used =
        st.localDaily.tokens_used + estimatedTokens budget c.type c.issue.body ∧
      r.st.localDaily.date = st.localDaily.date ∧
      (c.type = .battle → r.st.localDaily.battles_joined = st.localDaily.battles_joined + 1 ∧
        r.st.localDaily.tasks_completed = st.localDaily.tasks_completed) ∧
      (c.type = .task → r.st.localDaily.tasks_completed = st.localDaily.tasks_completed + 1 ∧
        r.st.localDaily.battles_joined = st.localDaily.battles_joined)) := by
  subst hr
  unfold processCandidate
  dsimp only
  by_cases hb : budgetExceeds budget t0 (estimatedTokens budget c.type c.issue.body) = true
  · rw [if_pos hb]; simp
  · rw [if_neg hb]
    rcases ownerK with _ | k
    · dsimp only
      by_cases hm : fallbackMatchOk prefs c.type c.issue.labels = true
      · rw [if_pos hm]; exact rateGate_daily prefs _ st c _ rfl
      · rw [if_neg hm]; simp
    · dsimp only
      rcases hmo : c.outcome.matchOwner with b | _
      · cases b <;> simp only [hmo]
        · simp
        · exact rateGate_daily prefs _ st c _ rfl
      · simp only [hmo]; simp

theorem submitPhase_log (est n : Int) (st : LoopSt) (d : DailyStats)
    (sub : ExtCall Bool) (l : List LogEvent) :
    ∃ extra, (submitPhase est n st d sub l).log = l ++ extra ∧
      (∀ m, LogEvent.claiming m ∉ extra) ∧
      ((submitPhase est n st d sub l).tag = .done → cntCompleted extra = 1) ∧
      ((submitPhase est n st d sub l).tag ≠ .done → cntCompleted extra = 0) := by
  cases sub
  · exact ⟨[.completed n], by simp [submitPhase], by simp,
      by simp [submitPhase, cntCompleted, isCompletedEv], by simp [submitPhase]⟩
  · exact ⟨[], by simp [submitPhase], by simp, by simp [submitPhase], by simp [cntCompleted]⟩

theorem execPhase_log (est : Int) (st : LoopSt) (c : Candidate) (l : List LogEvent) :
    ∃ extra, (execPhase est st c l).log = l ++ extra ∧
      (∀ m, LogEvent.claiming m ∉ extra) ∧
      ((execPhase est st c l).tag = .done → cntCompleted extra = 1) ∧
      ((execPhase est st c l).tag ≠ .done → cntCompleted extra = 0) := by
  rcases c with ⟨issue, ty, out⟩
  rcases out with ⟨mo, cl, ex, ru, su⟩
  cases ty
  · cases ex
    · obtain ⟨extra, h1, h2, h3, h4⟩ := submitPhase_log est issue.number st
        { st.localDaily with battles_joined := st.localDaily.battles_joined + 1 } su l
      exact ⟨extra, by simpa [execPhase] using h1, h2,
        by simpa [execPhase] using h3, by simpa [execPhase] using h4⟩
    · exact ⟨[], by simp [execPhase], by simp, by simp [execPhase], by simp [cntCompleted]⟩
  · by_cases hrr : requiresRepoOf issue.body
    · rcases ru with u | _
      · rcases u with _ | u
        · exact ⟨[.creatingRepo issue.number, .repoFailed issue.number],
            by simp [execPhase, hrr], by simp, by simp [execPhase, hrr],
            by simp [cntCompleted, isCompletedEv]⟩
        · obtain ⟨extra, h1, h2, h3, h4⟩ := submitPhase_log est issue.number st
            { st.localDaily with tasks_completed := st.localDaily.tasks_completed + 1 } su
            (l ++ [.creatingRepo issue.number, .workingIn u])
          refine ⟨[.creatingRepo issue.number, .workingIn u] ++ extra, ?_, ?_, ?_, ?_⟩
          · simpa [execPhase, hrr] using h1
          · intro m
            simp only [List.mem_append]
            rintro (hm | hm)
            · simp at hm
            · exact h2 m hm
          · intro hd
            rw [cntCompleted_append]
            have h5 := h3 (by simpa [execPhase, hrr] using hd)
            have hpre : cntCompleted [LogEvent.creatingRepo issue.number, LogEvent.workingIn u] = 0 := by
              simp [cntCompleted, isCompletedEv]
            omega
          · intro hd
            rw [cntCompleted_append]
            have h5 := h4 (by simpa [execPhase, hrr] using hd)
            have hpre : cntCompleted [LogEvent.creatingRepo issue.number, LogEvent.workingIn u] = 0 := by
              simp [cntCompleted, isCompletedEv]
            omega
      · exact ⟨[.creatingRepo issue.number], by simp [execPhase, hrr], by simp,
          by simp [execPhase, hrr], by simp [cntCompleted, isCompletedEv]⟩
    · cases ex
      · obtain ⟨extra, h1, h2, h3, h4⟩ := submitPhase_log est issue.number st
          { st.localDaily with tasks_completed := st.localDaily.tasks_completed + 1 } su l
        exact ⟨extra, by simpa [execPhase, hrr] using h1, h2,
          by simpa [execPhase, hrr] using h3, by simpa [execPhase, hrr] using h4⟩
      · exact ⟨[], by simp [execPhase, hrr], by simp, by simp [execPhase, hrr],
          by simp [cntCompleted]⟩

theorem claimPhase_log (est : Int) (st : LoopSt) (c : Candidate) :
    (∀ m, LogEvent.claiming m ∈ (claimPhase est st c).log → m = c.issue.number) ∧
    ((claimPhase est st c).tag = .done → cntCompleted (claimPhase est st c).log = 1) ∧
    ((claimPhase est st c).tag ≠ .done → cntCompleted (claimPhase est st c).log = 0) := by
  rcases hcl : c.outcome.claim with b | _
  · cases b
    · refine ⟨?_, ?_, ?_⟩ <;> simp [claimPhase, hcl, cntCompleted, isCompletedEv]
    · obtain ⟨extra, h1, h2, h3, h4⟩ := execPhase_log est
        { st with claimed := st.claimed ++ [c.issue.number] } c [.claiming c.issue.number]
      refine ⟨?_, ?_, ?_⟩
      · intro m hm
        rw [show (claimPhase est st c).log =
            (execPhase est { st with claimed := st.claimed ++ [c.issue.number] } c
              [.claiming c.issue.number]).log by simp [claimPhase, hcl]] at hm
        rw [h1] at hm
        rcases List.mem_append.mp hm with hm | hm
        · simpa using hm
        · exact absurd hm (h2 m)
      · intro hd
        rw [show (claimPhase est st c).log =
            (execPhase est { st with claimed := st.claimed ++ [c.issue.number] } c
              [.claiming c.issue.number]).log by simp [claimPhase, hcl], h1,
          cntCompleted_append]
        have : (claimPhase est st c).tag =
            (execPhase est { st with claimed := st.claimed ++ [c.issue.number] } c
              [.claiming c.issue.number]).tag := by simp [claimPhase, hcl]
        rw [this] at hd
        have h5 := h3 hd
        have hpre : cntCompleted [LogEvent.claiming c.issue.number] = 0 := by
          simp [cntCompleted, isCompletedEv]
        omega
      · intro hd
        rw [show (claimPhase est st c).log =
            (execPhase est { st with claimed := st.claimed ++ [c.issue.number] } c
              [.claiming c.issue.number]).log by simp [claimPhase, hcl], h1,
          cntCompleted_append]
        have : (claimPhase est st c).tag =
            (execPhase est { st with claimed := st.claimed ++ [c.issue.number] } c
              [.claiming c.issue.number]).tag := by simp [claimPhase, hcl]
        rw [this] at hd
        have h5 := h4 hd
        have hpre : cntCompleted [LogEvent.claiming c.issue.number] = 0 := by
          simp [cntCompleted, isCompletedEv]
        omega
  · refine ⟨?_, ?_, ?_⟩ <;> simp [claimPhase, hcl, cntCompleted, isCompletedEv]

theorem rateGate_log (prefs : Prefs) (est : Int) (st : LoopSt) (c : Candidate) :
    (∀ m, LogEvent.claiming m ∈ (rateGate prefs est st c).log → m = c.issue.number) ∧
    ((rateGate prefs est st c).tag = .done → cntCompleted (rateGate prefs est st c).log = 1) ∧
    ((rateGate prefs est st c).tag ≠ .done →
      cntCompleted (rateGate prefs est st c).log = 0) := by
  rcases c with ⟨issue, ty, out⟩
  cases ty <;> unfold rateGate <;> dsimp only <;> split
  · refine ⟨?_, ?_, ?_⟩ <;> simp [cntCompleted, isCompletedEv]
  · exact claimPhase_log est st ⟨issue, .battle, out⟩
  · refine ⟨?_, ?_, ?_⟩ <;> simp [cntCompleted, isCompletedEv]
  · exact claimPhase_log est st ⟨issue, .task, out⟩

theorem processCandidate_log (budget : Budget) (prefs : Prefs)
    (ownerK : Option (List Char)) (t0 : Int) (st : LoopSt) (c : Candidate) :
    (∀ m, LogEvent.claiming m ∈ (processCandidate budget prefs ownerK t0 st c).log →
      m = c.issue.number) ∧
    ((processCandidate budget prefs ownerK t0 st c).tag = .done →
      cntCompleted (processCandidate budget prefs ownerK t0 st c).log = 1) ∧
    ((processCandidate budget prefs ownerK t0 st c).tag ≠ .done →
      cntCompleted (processCandidate budget prefs ownerK t0 st c).log = 0) := by
  unfold processCandidate
  dsimp only
  by_cases hb : budgetExceeds budget t0 (estimatedTokens budget c.type c.issue.body) = true
  · rw [if_pos hb]
    refine ⟨?_, ?_, ?_⟩ <;> simp [cntCompleted, isCompletedEv]
  · rw [if_neg hb]
    rcases ownerK with _ | k
    · dsimp only
      by_cases hm : fallbackMatchOk prefs c.type c.issue.labels = true
      · rw [if_pos hm]; exact rateGate_log prefs _ st c
      · rw [if_neg hm]
        refine ⟨?_, ?_, ?_⟩ <;> simp [cntCompleted, isCompletedEv]
    · dsimp only
      rcases hmo : c.outcome.matchOwner with b | _
      · cases b <;> simp only [hmo]
        · refine ⟨?_, ?_, ?_⟩ <;> simp [cntCompleted, isCompletedEv]
        · exact rateGate_log prefs _ st c
      · simp only [hmo]
        refine ⟨?_, ?_, ?_⟩ <;> simp [cntCompleted, isCompletedEv]

theorem runLoop_claimed_mono (budget : Budget) (prefs : Prefs) (ownerK : Option (List Char))
    (t0 : Int) :
    ∀ (cands : List Candidate) (st : LoopSt) (x : Int), x ∈ st.claimed →
      x ∈ (runLoop budget prefs ownerK t0 cands st).st.claimed := by
  intro cands
  induction cands with
  | nil => intro st x hx; simpa [runLoop] using hx
  | cons c rest ih =>
    intro st x hx
    have hmem : x ∈ (processCandidate budget prefs ownerK t0 st c).st.claimed := by
      rcases processCandidate_claimed budget prefs ownerK t0 st c with h | h <;> rw [h]
      · exact hx
      · exact List.mem_append_left _ hx
    rw [runLoop]
    dsimp only
    rcases htag : (processCandidate budget prefs ownerK t0 st c).tag <;> simp only [htag]
    · exact ih _ x hmem
    · exact hmem
    · exact hmem

theorem runLoop_claiming (budget : Budget) (prefs : Prefs) (ownerK : Option (List Char))
    (t0 : Int) :
    ∀ (cands : List Candidate) (st : LoopSt) (m : Int),
      LogEvent.claiming m ∈ (runLoop budget prefs ownerK t0 cands st).log →
      ∃ c ∈ cands, m = c.issue.number := by
  intro cands
  induction cands with
  | nil => intro st m hm; simp [runLoop] at hm
  | cons c rest ih =>
    intro st m hm
    rw [runLoop] at hm
    dsimp only at hm
    rcases htag : (processCandidate budget prefs ownerK t0 st c).tag <;>
      simp only [htag] at hm
    · rcases List.mem_append.mp hm with hm | hm
      · exact ⟨c, List.mem_cons_self c rest,
          (processCandidate_log budget prefs ownerK t0 st c).1 m hm⟩
      · obtain ⟨c', hc', hn⟩ := ih _ m hm
        exact ⟨c', List.mem_cons_of_mem c hc', hn⟩
    · exact ⟨c, List.mem_cons_self c rest,
        (processCandidate_log budget prefs ownerK t0 st c).1 m hm⟩
    · exact ⟨c, List.mem_cons_self c rest,
        (processCandidate_log budget prefs ownerK t0 st c).1 m hm⟩

theorem runLoop_completed (budget : Budget) (prefs : Prefs) (ownerK : Option (List Char))
    (t0 : Int) :
    ∀ (cands : List Candidate) (st : LoopSt),
      cntCompleted (runLoop budget prefs ownerK t0 cands st).log ≤ 1 := by
  intro cands
  induction cands with
  | nil => intro st; simp [runLoop, cntCompleted]
  | cons c rest ih =>
    intro st
    rw [runLoop]
    dsimp only
    rcases htag : (processCandidate budget prefs ownerK t0 st c).tag <;> simp only [htag]
    · have h0 : cntCompleted (processCandidate budget prefs ownerK t0 st c).log = 0 :=
        (processCandidate_log budget prefs ownerK t0 st c).2.2 (by rw [htag]; intro h; cases h)
      have := ih (processCandidate budget prefs ownerK t0 st c).st
      rw [cntCompleted_append]
      omega
    · have h1 : cntCompleted (processCandidate budget prefs ownerK t0 st c).log = 1 :=
        (processCandidate_log budget prefs ownerK t0 st c).2.1 htag
      omega
    · have h0 : cntCompleted (processCandidate budget prefs ownerK t0 st c).log = 0 :=
        (processCandidate_log budget prefs ownerK t0 st c).2.2 (by rw [htag]; intro h; cases h)
      omega

theorem unclaimedOf_not_mem (cl : List Int) (cands : List Candidate) (c : Candidate)
    (h : c ∈ unclaimedOf cl cands) : c.issue.number ∉ cl := by
  have := List.of_mem_filter h
  simpa using this

/-! ### Concrete fixtures used by witnesses and counterexamples -/

def okOutcome : IssueOutcome :=
  ⟨.ok true, .ok true, .ok "r".data, .ok none, .ok true⟩

def issueW (n : Int) : Issue := ⟨n, "i".data, "hello".data, ["x".data]⟩

def prefsArenaX : Prefs := ⟨⟨true, ["x".data]⟩, ⟨false, [], 3⟩⟩

def prefsForGoodX : Prefs := ⟨⟨false, []⟩, ⟨true, ["x".data], 3⟩⟩

def budgetW : Budget := ⟨100000, 2000, 3000, 10⟩

def dayW : List Char := "d".data

def stW : LoopSt := ⟨[], ⟨0, 0, 0, dayW⟩, none⟩

def stW920 : LoopSt := ⟨[], ⟨920, 0, 0, dayW⟩, none⟩

def bodyRepo : List Char := "```yaml\nrequires_repo: true\nprompt: p\n```".data

/-! ### The claims -/

/-- Claim C4: an identifier in ClaimedSet at the start of a run has its item
filtered out before any gate is evaluated and is never claimed again (no
`Claiming` log line carries it), and the set only grows: every initial
member is still a member after the run. -/
theorem C4_dedup_closure (inp : RunInput) :
    (∀ (cands : List Candidate) (c : Candidate), c.issue.number ∈ inp.memClaimed →
      c ∉ unclaimedOf inp.memClaimed cands) ∧
    (∀ n, n ∈ inp.memClaimed → n ∈ (run inp).claimed) ∧
    (∀ m, LogEvent.claiming m ∈ (run inp).log → m ∉ inp.memClaimed) := by
  refine ⟨?_, ?_, ?_⟩
  · intro cands c hc hmem
    exact unclaimedOf_not_mem _ _ _ hmem hc
  · intro n hn
    unfold run
    by_cases hcred : credsMissing inp = true
    · rw [if_pos hcred]; exact hn
    · rw [if_neg hcred]
      dsimp only
      exact runLoop_claimed_mono _ _ _ _ _ _ n hn
  · intro m hm
    unfold run at hm
    by_cases hcred : credsMissing inp = true
    · rw [if_pos hcred] at hm
      simp at hm
    · rw [if_neg hcred] at hm
      dsimp only at hm
      rcases List.mem_cons.mp hm with h | hm
      · exact absurd h (by simp)
      · rcases List.mem_append.mp hm with hm | hm
        · obtain ⟨c, hc, rfl⟩ := runLoop_claiming _ _ _ _ _ _ m hm
          exact unclaimedOf_not_mem _ _ _ hc
        · revert hm
          split <;> simp

def C4inp : RunInput :=
  { agent_id := some "a".data
    github_token := some "t".data
    budget := budgetW
    prefs := prefsArenaX
    ownerK := none
    today := dayW
    memClaimed := [7]
    memDaily := none
    arenaItems := [(issueW 7, okOutcome), (issueW 8, okOutcome)]
    forGoodItems := [] }

theorem C4_dedup_closure_witness :
    ((⟨issueW 7, .battle, okOutcome⟩ : Candidate) ∉
      unclaimedOf C4inp.memClaimed (issuesOf C4inp)) ∧
    7 ∈ (run C4inp).claimed ∧ (8 : Int) ∉ C4inp.memClaimed :=
  ⟨(C4_dedup_closure C4inp).1 _ _ (by decide),
   (C4_dedup_closure C4inp).2.1 7 (by decide),
   (C4_dedup_closure C4inp).2.2 8 (by decide)⟩

/-- Claim C5: with dailyTokens=1000, reservePercent=10 the reserve is 100;
with tokensUsed=920 the available budget is −20; and any candidate whose
estimate is positive is rejected at the Budget gate, the step producing
only the budget-skip log line and leaving the state untouched. -/
theorem C5_budget_exhaustion (mb mt : Int) (prefs : Prefs) (ownerK : Option (List Char))
    (st : LoopSt) (c : Candidate)
    (hpos : 0 < estimatedTokens ⟨1000, mb, mt, 10⟩ c.type c.issue.body) :
    reserveQ ⟨1000, mb, mt, 10⟩ = 100 ∧
    availableQ ⟨1000, mb, mt, 10⟩ 920 = -20 ∧
    processCandidate ⟨1000, mb, mt, 10⟩ prefs ownerK 920 st c =
      ⟨.skip, st, [.skipBudget c.issue.number]⟩ := by
  refine ⟨?_, ?_, ?_⟩
  · unfold reserveQ; norm_num
  · unfold availableQ reserveQ; norm_num
  · unfold processCandidate
    dsimp only
    have hb : budgetExceeds ⟨1000, mb, mt, 10⟩ 920
        (estimatedTokens ⟨1000, mb, mt, 10⟩ c.type c.issue.body) = true := by
      unfold budgetExceeds
      simp only [decide_eq_true_eq]
      omega
    rw [if_pos hb]

theorem C5_budget_exhaustion_witness :
    reserveQ ⟨1000, 2000, 3000, 10⟩ = 100 ∧
    availableQ ⟨1000, 2000, 3000, 10⟩ 920 = -20 ∧
    processCandidate ⟨1000, 2000, 3000, 10⟩ prefsArenaX none 920 stW920
        ⟨issueW 1, .battle, okOutcome⟩ =
      ⟨.skip, stW920, [.skipBudget 1]⟩ :=
  C5_budget_exhaustion 2000 3000 prefsArenaX none stW920
    ⟨issueW 1, .battle, okOutcome⟩ (by decide)

/-- Claim C8: a claim post that reports failure leaves the candidate out of
ClaimedSet with the whole loop state unchanged, and the loop moves on to
the next candidate. -/
theorem C8_claim_failure_skips (budget : Budget) (prefs : Prefs)
    (ownerK : Option (List Char)) (t0 est : Int) (st : LoopSt) (c : Candidate)
    (rest : List Candidate) (hcl : c.outcome.claim = ExtCall.ok false) :
    claimPhase est st c =
      ⟨.skip, st, [.claiming c.issue.number, .claimFailed c.issue.number]⟩ ∧
    ((processCandidate budget prefs ownerK t0 st c).tag = .skip →
      (processCandidate budget prefs ownerK t0 st c).st = st →
      runLoop budget prefs ownerK t0 (c :: rest) st =
        ⟨(runLoop budget prefs ownerK t0 rest st).st,
          (processCandidate budget prefs ownerK t0 st c).log ++
            (runLoop budget prefs ownerK t0 rest st).log,
          (runLoop budget prefs ownerK t0 rest st).threw,
          (runLoop budget prefs ownerK t0 rest st).claimedThisRun⟩) := by
  constructor
  · simp [claimPhase, hcl]
  · intro htag hst
    rw [runLoop]
    dsimp only
    simp only [htag]
    rw [hst]

def candClaimFail : Candidate :=
  ⟨issueW 1, .battle, ⟨.ok true, .ok false, .ok "r".data, .ok none, .ok true⟩⟩

theorem C8_claim_failure_skips_witness :
    claimPhase 0 stW candClaimFail =
      ⟨.skip, stW, [.claiming 1, .claimFailed 1]⟩ ∧
    runLoop budgetW prefsArenaX none 0 (candClaimFail :: []) stW =
      ⟨(runLoop budgetW prefsArenaX none 0 [] stW).st,
        (processCandidate budgetW prefsArenaX none 0 stW candClaimFail).log ++
          (runLoop budgetW prefsArenaX none 0 [] stW).log,
        (runLoop budgetW prefsArenaX none 0 [] stW).threw,
        (runLoop budgetW prefsArenaX none 0 [] stW).claimedThisRun⟩ :=
  ⟨(C8_claim_failure_skips budgetW prefsArenaX none 0 0 stW candClaimFail [] rfl).1,
   (C8_claim_failure_skips budgetW prefsArenaX none 0 0 stW candClaimFail [] rfl).2
     (by decide) (by decide)⟩

/-- Claim C9: deduplication keys on the bare issue number, not on the
(pool, number) pair: committing a successful claim of a Battle item puts
the number of an equal-numbered Task item from the other pool into
ClaimedSet, and any candidate of either kind whose number is in ClaimedSet
is filtered out, so claiming either item excludes the other from every
subsequent run. -/
theorem C9_dedup_bare_number (bc tc : Candidate) (hb : bc.type = ItemType.battle)
    (ht : tc.type = ItemType.task) (hn : bc.issue.number = tc.issue.number) :
    (∀ (est : Int) (st : LoopSt), bc.outcome.claim = ExtCall.ok true →
      tc.issue.number ∈ (claimPhase est st bc).st.claimed) ∧
    (∀ (cl : List Int) (cands : List Candidate), tc.issue.number ∈ cl →
      bc ∉ unclaimedOf cl cands ∧ tc ∉ unclaimedOf cl cands) := by
  constructor
  · intro est st hcl
    have h : (claimPhase est st bc).st.claimed = st.claimed ++ [bc.issue.number] := by
      simp [claimPhase, hcl, execPhase_claimed]
    rw [h, hn]
    exact List.mem_append_right _ (List.mem_singleton_self _)
  · intro cl cands hclm
    constructor <;> intro hmem
    · exact unclaimedOf_not_mem _ _ _ hmem (hn ▸ hclm)
    · exact unclaimedOf_not_mem _ _ _ hmem hclm

def bcW : Candidate := ⟨issueW 5, .battle, okOutcome⟩

def tcW : Candidate := ⟨issueW 5, .task, okOutcome⟩

theorem C9_dedup_bare_number_witness :
    (5 : Int) ∈ (claimPhase 0 stW bcW).st.claimed ∧
    bcW ∉ unclaimedOf [5] [bcW, tcW] ∧ tcW ∉ unclaimedOf [5] [bcW, tcW] :=
  ⟨(C9_dedup_bare_number bcW tcW rfl rfl rfl).1 0 stW rfl,
   (C9_dedup_bare_number bcW tcW rfl rfl rfl).2 [5] [bcW, tcW] (by decide)⟩

theorem resolveNum_zeroish (envS : Option (List Char)) (cfgV : Option Int) (d : Int)
    (he : envS = none ∨ envS = some "0".data) (hc : cfgV = none ∨ cfgV = some 0) :
    resolveNum envS cfgV d = d := by
  rcases he with rfl | rfl <;> rcases hc with rfl | rfl <;> rfl

/-- Claim C10: for each numeric configuration field, a supplied value of 0
(environment variable "0" and/or nested-config 0) falls through to the
built-in default (100000, 2000, 3000, 10, 3 respectively), so a zero
ceiling or reserve cannot be configured. -/
theorem C10_zero_config_defaults (env : EnvVars) (cfg : NestedCfg)
    (h1 : env.daily_tokens = none ∨ env.daily_tokens = some "0".data)
    (h2 : cfg.daily_tokens = none ∨ cfg.daily_tokens = some 0)
    (h3 : env.max_per_battle = none ∨ env.max_per_battle = some "0".data)
    (h4 : cfg.max_per_battle = none ∨ cfg.max_per_battle = some 0)
    (h5 : env.max_per_task = none ∨ env.max_per_task = some "0".data)
    (h6 : cfg.max_per_task = none ∨ cfg.max_per_task = some 0)
    (h7 : env.reserve_percent = none ∨ env.reserve_percent = some "0".data)
    (h8 : cfg.reserve_percent = none ∨ cfg.reserve_percent = some 0)
    (h9 : env.max_tasks_per_day = none ∨ env.max_tasks_per_day = some "0".data)
    (h10 : cfg.max_tasks_per_day = none ∨ cfg.max_tasks_per_day = some 0) :
    (getConfigBudget env cfg).daily_tokens = 100000 ∧
    (getConfigBudget env cfg).max_per_battle = 2000 ∧
    (getConfigBudget env cfg).max_per_task = 3000 ∧
    (getConfigBudget env cfg).reserve_percent = 10 ∧
    getConfigMaxTasks env cfg = 3 :=
  ⟨resolveNum_zeroish _ _ _ h1 h2, resolveNum_zeroish _ _ _ h3 h4,
   resolveNum_zeroish _ _ _ h5 h6, resolveNum_zeroish _ _ _ h7 h8,
   resolveNum_zeroish _ _ _ h9 h10⟩

def envZero : EnvVars :=
  ⟨some "0".data, some "0".data, some "0".data, some "0".data, some "0".data⟩

def cfgZero : NestedCfg := ⟨some 0, some 0, some 0, some 0, none⟩

theorem C10_zero_config_defaults_witness :
    (getConfigBudget envZero cfgZero).daily_tokens = 100000 ∧
    (getConfigBudget envZero cfgZero).max_per_battle = 2000 ∧
    (getConfigBudget envZero cfgZero).max_per_task = 3000 ∧
    (getConfigBudget envZero cfgZero).reserve_percent = 10 ∧
    getConfigMaxTasks envZero cfgZero = 3 :=
  C10_zero_config_defaults envZero cfgZero (Or.inr rfl) (Or.inr rfl) (Or.inr rfl)
    (Or.inr rfl) (Or.inr rfl) (Or.inr rfl) (Or.inr rfl) (Or.inr rfl) (Or.inr rfl)
    (Or.inl rfl)

/-- Claim C1 (amended): for a claimed candidate, the token spend and the
kind counter are persisted in one write exactly when the submission call
returns without throwing — the submission's reported success or failure is
ignored — and any path that skips the candidate or throws leaves the
persisted daily stats unchanged. -/
theorem C1_spend_recording (budget : Budget) (prefs : Prefs)
    (ownerK : Option (List Char)) (t0 : Int) (st : LoopSt) (c : Candidate)
    (r : StepOut) (hr : r = processCandidate budget prefs ownerK t0 st c) :
    ((r.tag = .skip ∨ r.tag = .abort) → r.st.memDaily = st.memDaily) ∧
    (r.tag = .done → r.st.memDaily = some r.st.localDaily ∧
      r.st.localDaily.tokens_used =
        st.localDaily.tokens_used + estimatedTokens budget c.type c.issue.body ∧
      (c.type = .battle → r.st.localDaily.battles_joined = st.localDaily.battles_joined + 1 ∧
        r.st.localDaily.tasks_completed = st.localDaily.tasks_completed) ∧
      (c.type = .task → r.st.localDaily.tasks_completed = st.localDaily.tasks_completed + 1 ∧
        r.st.localDaily.battles_joined = st.localDaily.battles_joined)) := by
  have h := processCandidate_daily budget prefs ownerK t0 st c r hr
  exact ⟨h.1, fun hd => ⟨(h.2 hd).1, (h.2 hd).2.1, (h.2 hd).2.2.2.1, (h.2 hd).2.2.2.2⟩⟩

def candSubFail : Candidate :=
  ⟨issueW 1, .battle, ⟨.ok true, .ok true, .ok "r".data, .ok none, .ok false⟩⟩

theorem C1_spend_recording_witness :
    (processCandidate budgetW prefsArenaX none 0 stW candSubFail).st.memDaily =
      some (processCandidate budgetW prefsArenaX none 0 stW candSubFail).st.localDaily ∧
    (processCandidate budgetW prefsArenaX none 0 stW candSubFail).st.localDaily.tokens_used =
      stW.localDaily.tokens_used +
        estimatedTokens budgetW candSubFail.type candSubFail.issue.body := by
  have h := (C1_spend_recording budgetW prefsArenaX none 0 stW candSubFail _ rfl).2
    (by decide)
  exact ⟨h.1, h.2.1⟩

def C1inp : RunInput :=
  { agent_id := some "a".data
    github_token := some "t".data
    budget := budgetW
    prefs := prefsArenaX
    ownerK := none
    today := dayW
    memClaimed := []
    memDaily := none
    arenaItems := [(issueW 1, ⟨.ok true, .ok true, .ok "r".data, .ok none, .ok false⟩)]
    forGoodItems := [] }

/-- Claim C1 is false as stated: in `C1inp` the sole candidate's submission
post reports failure (`resp.ok = false`), yet the run records the token
spend (2002) and bumps `battles_joined` in the persisted daily stats. -/
theorem C1_counterexample :
    (∀ p ∈ C1inp.arenaItems, p.2.submit = ExtCall.ok false) ∧
    C1inp.memDaily = none ∧
    (run C1inp).memDaily = some ⟨2002, 1, 0, dayW⟩ ∧
    (run C1inp).threw = false := by
  decide

/-- Claim C2 (amended): at most one candidate completes submission (logs a
`Completed` line) per invocation. -/
theorem C2_single_completion (inp : RunInput) : cntCompleted (run inp).log ≤ 1 := by
  unfold run
  by_cases hcred : credsMissing inp = true
  · rw [if_pos hcred]
    simp [cntCompleted, isCompletedEv]
  · rw [if_neg hcred]
    dsimp only
    have key : ∀ o : LoopOut, cntCompleted o.log ≤ 1 →
        cntCompleted (LogEvent.polling :: o.log ++
          (if (!o.claimedThisRun && !o.threw) = true then [LogEvent.noneClaimed] else [])) ≤
          1 := by
      intro o ho
      by_cases hc : (!o.claimedThisRun && !o.threw) = true <;>
        simp only [hc, if_true, if_false, if_neg, if_pos] <;>
        simp only [cntCompleted, List.filter, isCompletedEv, List.filter_append,
          List.length_append] <;>
        simp only [cntCompleted] at ho <;>
        simp [isCompletedEv, List.filter, ho]
    exact key _ (runLoop_completed _ _ _ _ _ _)

def C2inp : RunInput :=
  { agent_id := some "a".data
    github_token := some "t".data
    budget := budgetW
    prefs := prefsForGoodX
    ownerK := none
    today := dayW
    memClaimed := []
    memDaily := none
    arenaItems := []
    forGoodItems :=
      [(⟨1, "t1".data, bodyRepo, ["x".data]⟩,
        ⟨.ok true, .ok true, .ok "r".data, .ok none, .ok true⟩),
       (issueW 2, okOutcome)] }

/-- Claim C2 is false as stated: in `C2inp` candidate 1's claim post
succeeds, its repo creation returns null, and the loop then claims
candidate 2 as well — two successfully claimed candidates in one run. -/
theorem C2_counterexample :
    (∀ p ∈ C2inp.forGoodItems, p.2.claim = ExtCall.ok true) ∧
    (run C2inp).claimed = [1, 2] ∧
    LogEvent.claiming 1 ∈ (run C2inp).log ∧
    LogEvent.claiming 2 ∈ (run C2inp).log ∧
    (run C2inp).threw = false := by
  decide

/-- Claim C3 (amended): failures that the claim post or the repo creation
REPORT (a false/null result) are contained to the candidate and the loop
continues; but a claim, execution, repo-creation or submission call that
THROWS aborts the whole invocation; and missing credentials end the run
before any processing, with memory untouched. -/
theorem C3_failure_containment :
    (∀ (est : Int) (st : LoopSt) (c : Candidate), c.outcome.claim = ExtCall.ok false →
      claimPhase est st c =
        ⟨.skip, st, [.claiming c.issue.number, .claimFailed c.issue.number]⟩) ∧
    (∀ (est : Int) (st : LoopSt) (c : Candidate) (l : List LogEvent),
      c.type = .task → requiresRepoOf c.issue.body = true →
      c.outcome.repoUrl = ExtCall.ok none →
      execPhase est st c l =
        ⟨.skip, st, l ++ [.creatingRepo c.issue.number, .repoFailed c.issue.number]⟩) ∧
    (∀ (est : Int) (st : LoopSt) (c : Candidate) (l : List LogEvent),
      c.type = .battle → c.outcome.execText = ExtCall.threw →
      (execPhase est st c l).tag = .abort) ∧
    (∀ (est n : Int) (st : LoopSt) (d : DailyStats) (l : List LogEvent),
      (submitPhase est n st d ExtCall.threw l).tag = .abort) ∧
    (∀ inp : RunInput, credsMissing inp = true →
      run inp = ⟨inp.memClaimed, inp.memDaily, [.missingCreds], false, false⟩) := by
  refine ⟨?_, ?_, ?_, ?_, ?_⟩
  · intro est st c hcl
    simp [claimPhase, hcl]
  · intro est st c l hty hrr hru
    rcases c with ⟨issue, ty, out⟩
    rcases out with ⟨mo, cl, ex, ru, su⟩
    dsimp only at hty hrr hru ⊢
    subst hty
    subst hru
    simp [execPhase, hrr]
  · intro est st c l hty hex
    rcases c with ⟨issue, ty, out⟩
    rcases out with ⟨mo, cl, ex, ru, su⟩
    dsimp only at hty hex ⊢
    subst hty
    subst hex
    simp [execPhase]
  · intro est n st d l
    rfl
  · intro inp h
    unfold run
    rw [if_pos h]

def candRepoFail : Candidate :=
  ⟨⟨1, "i".data, bodyRepo, ["x".data]⟩, .task,
    ⟨.ok true, .ok true, .ok "r".data, .ok none, .ok true⟩⟩

def candExecThrow : Candidate :=
  ⟨issueW 1, .battle, ⟨.ok true, .ok true, .threw, .ok none, .ok true⟩⟩

def inpNoCreds : RunInput :=
  { agent_id := none
    github_token := some "t".data
    budget := budgetW
    prefs := prefsArenaX
    ownerK := none
    today := dayW
    memClaimed := [3]
    memDaily := none
    arenaItems := []
    forGoodItems := [] }

theorem C3_failure_containment_witness :
    claimPhase 0 stW candClaimFail = ⟨.skip, stW, [.claiming 1, .claimFailed 1]⟩ ∧
    execPhase 0 stW candRepoFail [] = ⟨.skip, stW, [.creatingRepo 1, .repoFailed 1]⟩ ∧
    (execPhase 0 stW candExecThrow []).tag = .abort ∧
    (submitPhase 0 1 stW stW.localDaily ExtCall.threw []).tag = .abort ∧
    run inpNoCreds = ⟨[3], none, [.missingCreds], false, false⟩ :=
  ⟨C3_failure_containment.1 0 stW candClaimFail rfl,
   C3_failure_containment.2.1 0 stW candRepoFail [] rfl (by decide) rfl,
   C3_failure_containment.2.2.1 0 stW candExecThrow [] rfl rfl,
   C3_failure_containment.2.2.2.1 0 1 stW stW.localDaily [],
   C3_failure_containment.2.2.2.2 inpNoCreds (by decide)⟩

def C3inp : RunInput :=
  { agent_id := some "a".data
    github_token := some "t".data
    budget := budgetW
    prefs := prefsArenaX
    ownerK := none
    today := dayW
    memClaimed := []
    memDaily := none
    arenaItems :=
      [(issueW 1, ⟨.ok true, .ok true, .threw, .ok none, .ok true⟩),
       (issueW 2, okOutcome)]
    forGoodItems := [] }

/-- Claim C3 is false as stated: in `C3inp` candidate 1's execution call
throws and, with credentials present, the whole invocation aborts —
candidate 2 (identical and fully claimable) is never claimed or evaluated. -/
theorem C3_counterexample :
    credsMissing C3inp = false ∧
    (run C3inp).threw = true ∧
    (run C3inp).claimed = [1] ∧
    LogEvent.claiming 2 ∉ (run C3inp).log := by
  decide

/-- Modelled from the spec (claim C6's words): promptLength is the length
of an explicit prompt extracted from the item body's configuration block
or, when no explicit prompt is present, the length of the raw body. -/
def promptLenClaim (body : List Char) : Nat :=
  match lookupLast (blockEntries body) promptKey with
  | some p => p.length
  | none => body.length

/-- Modelled from the spec (claim C6's words): the whole estimate as the
claim states it, `ceil(promptLength/4)` plus the raw per-kind output
budget. -/
def estimatedTokensClaim (budget : Budget) (ty : ItemType) (body : List Char) : Int :=
  (ceilDiv4 (promptLenClaim body) : Int) +
    (match ty with
     | .battle => budget.max_per_battle
     | .task => budget.max_per_task)

/-- Claim C6 is false as stated: for the body `"  hi  "` (no configuration
block, so no explicit prompt) the code estimates from the stripped and
trimmed body (length 2), not from the raw body (length 6): 3001 ≠ 3002. -/
theorem C6_counterexample :
    estimatedTokens ⟨100000, 2000, 3000, 10⟩ .task "  hi  ".data = 3001 ∧
    estimatedTokensClaim ⟨100000, 2000, 3000, 10⟩ .task "  hi  ".data = 3002 ∧
    estimatedTokens ⟨100000, 2000, 3000, 10⟩ .task "  hi  ".data ≠
      estimatedTokensClaim ⟨100000, 2000, 3000, 10⟩ .task "  hi  ".data := by
  decide

/-- The effective prompt length as the amended claim describes it. -/
def promptLenAmended (body : List Char) : Nat :=
  let fb := if strippedPrompt body = [] then body.length else (strippedPrompt body).length
  match lookupLast (blockEntries body) promptKey with
  | some p => if p = [] then fb else p.length
  | none => fb

theorem lookupLast_append_self (xs : List (List Char × List Char)) (k v : List Char) :
    lookupLast (xs ++ [(k, v)]) k = some v := by
  induction xs with
  | nil => simp [lookupLast]
  | cons a rest ih =>
    rcases a with ⟨k1, v1⟩
    simp [lookupLast, ih]

theorem promptLen_eq_amended (body : List Char) : promptLen body = promptLenAmended body := by
  unfold promptLen cfgGet parseIssueConfig promptLenAmended
  dsimp only
  cases he : lookupLast (blockEntries body) promptKey with
  | none =>
    simp only [he]
    rw [lookupLast_append_self]
    by_cases hs : strippedPrompt body = []
    · simp [hs]
    · have hlen : (strippedPrompt body).length ≠ 0 := by
        simpa [List.length_eq_zero] using hs
      simp [hs, hlen]
  | some p =>
    simp only [he]
    by_cases hp : p = []
    · rw [if_pos hp, lookupLast_append_self]
      by_cases hs : strippedPrompt body = []
      · simp [hs, hp]
      · have hlen : (strippedPrompt body).length ≠ 0 := by
          simpa [List.length_eq_zero] using hs
        simp [hs, hlen, hp]
    · rw [if_neg hp, he]
      have hlen : p.length ≠ 0 := by simpa [List.length_eq_zero] using hp
      simp [hlen, hp]

/-- Claim C6 (amended): the estimate is `ceil(promptLength/4)` plus the
per-kind output budget (`maxPerBattle`/`maxPerTask`, a zero value falling
back to 2000/3000), where promptLength is the length of an explicit
non-empty prompt from the body's configuration block and otherwise the
length of the body with fenced and `---`-delimited blocks removed and
trimmed — the raw body length is used only when that residue is empty. -/
theorem C6_estimate_formula (budget : Budget) (ty : ItemType) (body : List Char) :
    estimatedTokens budget ty body =
      (ceilDiv4 (promptLenAmended body) : Int) +
        (match ty with
         | ItemType.battle => jsOrInt budget.max_per_battle 2000
         | ItemType.task => jsOrInt budget.max_per_task 3000) := by
  unfold estimatedTokens estimatedInputTokens
  rw [promptLen_eq_amended]

/-! ### Binary64 model of the budget arithmetic (lines 125-126)

`reserveQ`/`availableQ` above give the exact-rational value of line 125's
expression and are used where they provably coincide with the program
(claim C5's scenario).  The program itself evaluates the expression in
IEEE binary64 doubles, whose rounding is observable at other
configurations, so claim C7 is settled against the following faithful
model: every arithmetic step rounds its exact result to 53 significant
bits, to nearest, ties to even.  Overflow and subnormals are outside the
magnitudes that can reach line 125 and are not modelled. -/

def pow2 : Nat → Int
  | 0 => 1
  | n + 1 => 2 * pow2 n

/-- A binary64 value `m * 2^e` (zero is `⟨0, 0⟩`; after rounding,
`2^52 ≤ |m| < 2^53`). -/
structure F where
  m : Int
  e : Int
deriving DecidableEq

/-- Scale `n/d * 2^e` (with `n, d > 0`) up until `n/d ∈ [2^52, ∞)`,
halving the exponent's weight each step.  Fuel-bounded; 1200 steps cover
the whole binary64 range. -/
def scaleUpF : Nat → Int → Int → Int → Int × Int × Int
  | 0, n, d, e => (n, d, e)
  | fuel + 1, n, d, e =>
    if n < pow2 52 * d then scaleUpF fuel (2 * n) d (e - 1) else (n, d, e)

/-- Scale `n/d * 2^e` down until `n/d < 2^53`. -/
def scaleDownF : Nat → Int → Int → Int → Int × Int × Int
  | 0, n, d, e => (n, d, e)
  | fuel + 1, n, d, e =>
    if pow2 53 * d ≤ n then scaleDownF fuel n (2 * d) (e + 1) else (n, d, e)

/-- Round `n/d` (both non-negative, `d > 0`) to an integer, to nearest,
ties to even. -/
def roundHalfEven (n d : Int) : Int :=
  let q := n / d
  let r := n % d
  if 2 * r > d ∨ (2 * r = d ∧ q % 2 = 1) then q + 1 else q

/-- Round the exact rational `(num/den) * 2^e0` (`den > 0`) to binary64:
normalise the magnitude into `[2^52, 2^53)`, round the mantissa to
nearest/ties-to-even, and renormalise if rounding carried to `2^53`. -/
def roundQ (num den : Int) (e0 : Int) : F :=
  if num = 0 then ⟨0, 0⟩
  else
    let sign : Int := if 0 < num then 1 else -1
    let s1 := scaleUpF 1200 (num.natAbs : Int) den e0
    let s2 := scaleDownF 1200 s1.1 s1.2.1 s1.2.2
    let q := roundHalfEven s2.1 s2.2.1
    if q = pow2 53 then ⟨sign * pow2 52, s2.2.2 + 1⟩ else ⟨sign * q, s2.2.2⟩

/-- An integer as a double (exact for `|n| < 2^53`, which covers every
value reaching line 125). -/
def fofInt (n : Int) : F := roundQ n 1 0

/-- Double multiplication: the exact product of the operands, rounded. -/
def fmul (a b : F) : F := roundQ (a.m * b.m) 1 (a.e + b.e)

/-- Double subtraction: the exact difference, rounded. -/
def fsub (a b : F) : F :=
  if a.e ≤ b.e then roundQ (a.m - b.m * pow2 (b.e - a.e).toNat) 1 a.e
  else roundQ (a.m * pow2 (a.e - b.e).toNat - b.m) 1 b.e

/-- Double division: the exact quotient, rounded. -/
def fdiv (a b : F) : F :=
  if b.m < 0 then roundQ (-a.m) (-b.m) (a.e - b.e) else roundQ a.m b.m (a.e - b.e)

/-- Line 125 in binary64: `daily_tokens * (reserve_percent / 100)`. -/
def reserveF (d r : Int) : F := fmul (fofInt d) (fdiv (fofInt r) (fofInt 100))

/-- Line 126 in binary64: `daily_tokens - tokens_used - reserve`,
evaluated left to right. -/
def availableF (d t r : Int) : F := fsub (fsub (fofInt d) (fofInt t)) (reserveF d r)

/-- The exact rational value of a double. -/
def F.toQ (x : F) : ℚ :=
  if 0 ≤ x.e then (x.m : ℚ) * (2 : ℚ) ^ x.e.toNat
  else (x.m : ℚ) / (2 : ℚ) ^ (-x.e).toNat

/-- Whether the double `reserve_percent / 100` equals the exact rational
`r / 100` (an integer identity avoiding rational arithmetic). -/
def divExact100 (r : Int) : Bool :=
  let f := fdiv (fofInt r) (fofInt 100)
  if 0 ≤ f.e then decide (f.m * pow2 f.e.toNat * 100 = r)
  else decide (f.m * 100 = r * pow2 (-f.e).toNat)

set_option maxRecDepth 1000000 in
/-- Claim C7 is false as stated: reservePercent = 55 lies within 0-100 and
100 even divides dailyTokens*reservePercent, yet with dailyTokens = 100 and
tokensUsed = 0 the program's double arithmetic returns
6333186975989759 * 2^(-47) = 44.99999999999999289..., which is neither the
exact value 100 - 0 - 100*55/100 = 45 nor an integer. -/
theorem C7_counterexample :
    ((0 : Int) ≤ 55 ∧ (55 : Int) ≤ 100) ∧
    ((100 : Int) ∣ 100 * 55) ∧
    availableF 100 0 55 = ⟨6333186975989759, -47⟩ ∧
    F.toQ (availableF 100 0 55) ≠ (100 : ℚ) - 0 - 100 * (55 / 100) ∧
    ¬ ∃ z : Int, F.toQ (availableF 100 0 55) = (z : ℚ) := by
  have hval : availableF 100 0 55 = ⟨6333186975989759, -47⟩ := by decide
  have htoQ : F.toQ ⟨6333186975989759, -47⟩ =
      (6333186975989759 : ℚ) / 140737488355328 := by
    norm_num [F.toQ, show ((47 : Int)).toNat = 47 from rfl]
  refine ⟨⟨by norm_num, by norm_num⟩, ⟨55, by norm_num⟩, hval, ?_, ?_⟩
  · rw [hval, htoQ]
    norm_num
  · rw [hval, htoQ]
    rintro ⟨z, hz⟩
    have h2 : (6333186975989759 : Int) = z * 140737488355328 := by
      field_simp at hz
      exact_mod_cast hz
    omega

set_option maxRecDepth 1000000 in
/-- Claim C7 (amended): `available()` is the binary64 evaluation of
`dailyTokens - tokensUsed - dailyTokens*(reservePercent/100)`; rounding
makes it differ in general from the exact rational value and it need not
be an integer even when 100 divides dailyTokens*reservePercent
(dailyTokens=100, reservePercent=55, tokensUsed=0 gives
6333186975989759/2^47, one unit in the last place below 45); the division
`reservePercent/100` is exact only for reservePercent in
{0, 25, 50, 75, 100}; at the spec's own budget-exhaustion scenario
(dailyTokens=1000, reservePercent=10, tokensUsed=920) every step happens
to round exactly and `available()` is exactly the rational value -20. -/
theorem C7_available_binary64 :
    (∀ n ∈ List.range 101, divExact100 (n : Int) =
      decide (n = 0 ∨ n = 25 ∨ n = 50 ∨ n = 75 ∨ n = 100)) ∧
    availableF 1000 920 10 = ⟨-5629499534213120, -48⟩ ∧
    F.toQ (availableF 1000 920 10) = availableQ ⟨1000, 2000, 3000, 10⟩ 920 ∧
    availableF 100 0 55 = ⟨6333186975989759, -47⟩ ∧
    F.toQ (availableF 100 0 55) = (6333186975989759 : ℚ) / 2 ^ 47 ∧
    ¬ ∃ z : Int, F.toQ (availableF 100 0 55) = (z : ℚ) := by
  have hval : availableF 100 0 55 = ⟨6333186975989759, -47⟩ := by decide
  have hval20 : availableF 1000 920 10 = ⟨-5629499534213120, -48⟩ := by decide
  have htoQ : F.toQ ⟨6333186975989759, -47⟩ =
      (6333186975989759 : ℚ) / 140737488355328 := by
    norm_num [F.toQ, show ((47 : Int)).toNat = 47 from rfl]
  have htoQ20 : F.toQ ⟨-5629499534213120, -48⟩ = -20 := by
    norm_num [F.toQ, show ((48 : Int)).toNat = 48 from rfl]
  refine ⟨by decide, hval20, ?_, hval, ?_, ?_⟩
  · rw [hval20, htoQ20]
    norm_num [availableQ, reserveQ]
  · rw [hval, htoQ]
    norm_num
  · rw [hval, htoQ]
    rintro ⟨z, hz⟩
    have h2 : (6333186975989759 : Int) = z * 140737488355328 := by
      field_simp at hz
      exact_mod_cast hz
    omega

end ClawClub
